import Mathlib

/-!
# Shallow embedding of the moon-build-dashboard build-matrix engine

This file embeds the core of the `moon-build-dashboard` repository
(`src/main.rs`, `src/dashboard.rs`, `src/mooncakesio.rs`, `src/util.rs`) into
Lean 4 and proves the testable properties of its specification.

External effects (process spawning, git operations, registry downloads,
clocks) are modelled by explicit environment records: each external call site
reads its outcome from the environment, with sequences of calls keyed by call
position.  Machine integers that never overflow in practice (millisecond
durations, list indices) are modelled as `Nat`.
-/

namespace MoonBuild

/-- `Backend` as used throughout `src/main.rs` (the default backend list at
main.rs:117 and the twelve-slot matrix in `run_matrix`): four variants.
Note: the declaration in `src/dashboard.rs` lines 30-38 omits `Native`; see
`BackendDecl` below for that declaration as written. -/
inductive Backend where
  | Wasm
  | WasmGC
  | Js
  | Native
deriving DecidableEq, Repr

/-- `Backend::to_flag` (dashboard.rs:41-47) for the three declared variants;
for `Native` — absent from `src/dashboard.rs` — Modelled from the spec: each
backend has a canonical lowercase flag string, so `Native` maps to
`"native"`. -/
def Backend.to_flag : Backend → String
  | .Wasm => "wasm"
  | .WasmGC => "wasm-gc"
  | .Js => "js"
  | .Native => "native"

/-- The `Backend` enum exactly as declared in `src/dashboard.rs` lines 30-38:
only three variants; `Native` is missing even though `src/main.rs` requires
it. -/
inductive BackendDecl where
  | Wasm
  | WasmGC
  | Js
deriving DecidableEq, Repr

/-- `Backend::to_flag` exactly as written in `src/dashboard.rs` lines 40-48. -/
def BackendDecl.to_flag : BackendDecl → String
  | .Wasm => "wasm"
  | .WasmGC => "wasm-gc"
  | .Js => "js"

/-- `OS` (dashboard.rs:50-58). -/
inductive OS where
  | Linux
  | MacOS
  | Windows
deriving DecidableEq, Repr

/-- `OS::to_flag` (dashboard.rs:60-68). -/
def OS.to_flag : OS → String
  | .Linux => "linux"
  | .MacOS => "macos"
  | .Windows => "windows"

/-- `MooncakeSource` (dashboard.rs:3-19); the registry variant is spelled
`MooncakesIo` here for the Rust variant written with a fully capitalized
acronym. -/
inductive MooncakeSource where
  | MooncakesIo (name : String) (version : List String)
      (running_os : List OS) (running_backend : List Backend) (index : Nat)
  | Git (url : String) (rev : List String)
      (running_os : List OS) (running_backend : List Backend) (index : Nat)
deriving DecidableEq, Repr

/-- `MooncakeSource::get_index` (dashboard.rs:21-28). -/
def MooncakeSource.get_index : MooncakeSource → Nat
  | .MooncakesIo _ _ _ _ index => index
  | .Git _ _ _ _ index => index

/-- The list of versions (MooncakesIo) or revisions (Git) declared for a
source: the list iterated by `build` (main.rs:236 and main.rs:252). -/
def MooncakeSource.fetch_list : MooncakeSource → List String
  | .MooncakesIo _ version _ _ _ => version
  | .Git _ rev _ _ _ => rev

/-- `MoonCommand` (dashboard.rs:70-75). -/
inductive MoonCommand where
  | Check (b : Backend)
  | Build (b : Backend)
  | Test (b : Backend)
deriving DecidableEq, Repr

/-- `MoonCommand::args` (dashboard.rs:77-92). -/
def MoonCommand.args (c : MoonCommand) (is_moonbit_community : Bool) : List String :=
  match c with
  | .Check backend => ["check", "-q", "--target", backend.to_flag]
  | .Build backend => ["build", "-q", "--target", backend.to_flag]
  | .Test backend =>
      if is_moonbit_community then
        ["test", "-q", "--target", backend.to_flag]
      else
        ["test", "-q", "--build-only", "--target", backend.to_flag]

/-- `Status` (dashboard.rs:122-127). -/
inductive Status where
  | Success
  | Failure
  | Skipped
deriving DecidableEq, Repr

/-- `ExecuteResult` (dashboard.rs:129-136); `elapsed` is milliseconds. -/
structure ExecuteResult where
  status : Status
  start_time : String
  elapsed : Nat
  stdout : String
  stderr : String
deriving DecidableEq, Repr

/-- `ExecuteResult::skip_result` (dashboard.rs:138-148). -/
def ExecuteResult.skip_result : ExecuteResult :=
  { status := Status.Skipped
    start_time := ""
    elapsed := 0
    stdout := ""
    stderr := "" }

/-- `BackendState` as constructed by `run_matrix` (main.rs:512-531): one
`ExecuteResult` per backend, including the `native` field.  (The declaration
in `src/dashboard.rs` lines 150-155 lists only `wasm`, `wasm_gc`, `js`; see
`BackendDecl` and the C4 analysis.) -/
structure BackendState where
  wasm : ExecuteResult
  wasm_gc : ExecuteResult
  js : ExecuteResult
  native : ExecuteResult
deriving DecidableEq, Repr

/-- `CBT` (dashboard.rs:157-162). -/
structure CBT where
  check : BackendState
  build : BackendState
  test : BackendState
deriving DecidableEq, Repr

/-- `BuildState` (dashboard.rs:164-168). -/
structure BuildState where
  source : Nat
  cbts : List (Option CBT)
deriving DecidableEq, Repr

/-- `ToolChainLabel` (dashboard.rs:94-98). -/
inductive ToolChainLabel where
  | Stable
  | Bleeding
deriving DecidableEq, Repr

/-- `ToolChainVersion` (dashboard.rs:100-105). -/
structure ToolChainVersion where
  label : ToolChainLabel
  moon_version : String
  moonc_version : String
deriving DecidableEq, Repr

/-- `MoonBuildDashboard` (dashboard.rs:107-120). -/
structure MoonBuildDashboard where
  run_id : String
  run_number : String
  start_time : String
  sources : List MooncakeSource
  stable_toolchain_version : ToolChainVersion
  stable_release_data : List BuildState
  bleeding_toolchain_version : ToolChainVersion
  bleeding_release_data : List BuildState
deriving DecidableEq, Repr

/-! ## Command Runner (`run_moon`, main.rs:46-92) -/

/-- `RunMoonError` (main.rs:26-36).  Error payloads (`std::io::Error`,
`ExitStatus`, `FromUtf8Error`) carry no information the engine inspects and
are omitted. -/
inductive RunMoonError where
  | IOError
  | ReturnNonZero
  | FromUtf8
deriving DecidableEq, Repr

/-- `CommandOutput` (main.rs:38-44); `duration` is milliseconds. -/
structure CommandOutput where
  duration : Nat
  stdout : String
  stderr : String
  success : Bool
deriving DecidableEq, Repr

/-- Outcome of one attempt to spawn the external `moon` process: either the
spawn itself fails (`std::process::Command::output` returns an `io::Error`),
or the process runs to completion with an exit-status success flag and
captured output (lossy-decoded, so decoding never fails). -/
inductive SpawnResult where
  | ioError
  | exited (success : Bool) (stdout : String) (stderr : String)
deriving DecidableEq, Repr

/-- `run_moon` (main.rs:46-92): spawn failure is returned as
`RunMoonError::IOError`; otherwise the captured output, measured duration and
the exit-status success flag are returned as `Ok`.  The `eprintln!` progress
lines are pure diagnostics and are not modelled; `elapsed` is the measured
wall-clock duration, supplied by the environment.  The argument vector is
passed to the external process (absorbed into the `SpawnResult` oracle). -/
def run_moon (spawn : SpawnResult) (elapsed : Nat) (args : List String) :
    Except RunMoonError CommandOutput :=
  match spawn with
  | .ioError => Except.error RunMoonError.IOError
  | .exited success stdout stderr =>
      let _ := args
      Except.ok { duration := elapsed, stdout := stdout, stderr := stderr, success := success }

/-! ## `stat_mooncake` (main.rs:167-208) -/

/-- `StatMooncakeError` (main.rs:161-165). -/
inductive StatMooncakeError where
  | RunMoon (e : RunMoonError)
deriving DecidableEq, Repr

/-- Environment for one `stat_mooncake` call: the outcomes of its two
external invocations (`moon clean`, then the command under test), their
measured durations, and the clock reading used for `start_time`. -/
structure StatMooncakeEnv where
  clean_spawn : SpawnResult
  clean_elapsed : Nat
  cmd_spawn : SpawnResult
  cmd_elapsed : Nat
  start_time : String
deriving DecidableEq, Repr

/-- `str::contains` substring test, checking whether `needle` is a prefix of
`hay`. -/
def substr_here : List Char → List Char → Bool
  | [], _ => true
  | _ :: _, [] => false
  | c :: ns, d :: hs => c == d && substr_here ns hs

/-- `str::contains` substring test: `needle` occurs somewhere in `hay`. -/
def has_substr (needle : List Char) : List Char → Bool
  | [] => substr_here needle []
  | d :: hs => substr_here needle (d :: hs) || has_substr needle hs

/-- Rust `str::contains(pat)` on whole strings. -/
def str_contains (s pat : String) : Bool :=
  has_substr pat.toList s.toList

/-- The first-party classification in `stat_mooncake` (main.rs:174-177):
substring match of `"moonbitlang"` against the source's name or URL. -/
def is_moonbit_community : MooncakeSource → Bool
  | .MooncakesIo name _ _ _ _ => str_contains name "moonbitlang"
  | .Git url _ _ _ _ => str_contains url "moonbitlang"

/-- `stat_mooncake` (main.rs:167-208): runs `moon clean` best-effort
(result discarded), runs the command, then classifies the outcome.  Note the
translation of main.rs:179-206: the `run_moon` error is mapped into
`StatMooncakeError` but then only inspected via `r.as_ref()`/`r.ok()`, so the
function always ends in `Ok(execute_result)` — an error becomes
`Status::Failure` with zero elapsed and empty output. -/
def stat_mooncake (env : StatMooncakeEnv) (source : MooncakeSource) (cmd : MoonCommand) :
    Except StatMooncakeError ExecuteResult :=
  let _ := run_moon env.clean_spawn env.clean_elapsed ["clean"]
  let imc := is_moonbit_community source
  let r : Except StatMooncakeError CommandOutput :=
    (run_moon env.cmd_spawn env.cmd_elapsed (cmd.args imc)).mapError StatMooncakeError.RunMoon
  let status :=
    match r with
    | .ok output => if output.success then Status.Success else Status.Failure
    | .error _ => Status.Failure
  let output := r.toOption
  let elapsed := (output.map (fun d => d.duration)).getD 0
  Except.ok
    { status := status
      start_time := env.start_time
      elapsed := elapsed
      stdout := (output.map (fun d => d.stdout)).getD ""
      stderr := (output.map (fun d => d.stderr)).getD "" }

/-! ## Matrix Runner (`run_matrix`, main.rs:276-532) -/

/-- `RunMatrixError` (main.rs:270-274). -/
inductive RunMatrixError where
  | StatMooncake (e : StatMooncakeError)
deriving DecidableEq, Repr

/-- The twelve mutable result slots of `run_matrix` (main.rs:282-295),
grouped as the `CBT` they are assembled into at main.rs:512-531: all
initialized to `skip_result`. -/
def CBT.all_skip : CBT :=
  { check := { wasm := ExecuteResult.skip_result, wasm_gc := ExecuteResult.skip_result
               js := ExecuteResult.skip_result, native := ExecuteResult.skip_result }
    build := { wasm := ExecuteResult.skip_result, wasm_gc := ExecuteResult.skip_result
               js := ExecuteResult.skip_result, native := ExecuteResult.skip_result }
    test := { wasm := ExecuteResult.skip_result, wasm_gc := ExecuteResult.skip_result
              js := ExecuteResult.skip_result, native := ExecuteResult.skip_result } }

/-- Overwrite the slot of backend `b` in a `BackendState` (the assignment to
`check_wasm` / `check_wasm_gc` / `check_js` / `check_native` etc. in the
match arms of `run_matrix`). -/
def BackendState.set (bs : BackendState) (b : Backend) (r : ExecuteResult) : BackendState :=
  match b with
  | .Wasm => { bs with wasm := r }
  | .WasmGC => { bs with wasm_gc := r }
  | .Js => { bs with js := r }
  | .Native => { bs with native := r }

/-- One backend arm of `run_matrix` (e.g. main.rs:303-322): three
`stat_mooncake` calls (Check, Build, Test, in that order) overwriting the
backend's three slots; `?` propagates any error.  External-call outcomes are
keyed by call sequence number `k` (each `stat_mooncake` call consumes one
environment slot). -/
def run_backend_cell (env : Nat → StatMooncakeEnv) (source : MooncakeSource)
    (b : Backend) (st : CBT × Nat) : Except RunMatrixError (CBT × Nat) := do
  let cbt := st.1
  let k := st.2
  let c ← (stat_mooncake (env k) source (MoonCommand.Check b)).mapError RunMatrixError.StatMooncake
  let bu ← (stat_mooncake (env (k+1)) source (MoonCommand.Build b)).mapError RunMatrixError.StatMooncake
  let t ← (stat_mooncake (env (k+2)) source (MoonCommand.Test b)).mapError RunMatrixError.StatMooncake
  Except.ok
    ({ check := cbt.check.set b c, build := cbt.build.set b bu, test := cbt.test.set b t }, k + 3)

/-- The inner `for backend in running_backend` loop of a matching OS arm
(main.rs:301-366). -/
def run_backend_list (env : Nat → StatMooncakeEnv) (source : MooncakeSource) :
    List Backend → CBT × Nat → Except RunMatrixError (CBT × Nat)
  | [], st => Except.ok st
  | b :: rest, st => do
      let st' ← run_backend_cell env source b st
      run_backend_list env source rest st'

/-- The outer `for os in running_os` loop of `run_matrix` (main.rs:297-510).
Each OS arm guards on `cfg!(target_os = ...)`, i.e. runs its backend loop
exactly when the nominal OS equals the host OS the binary was compiled for;
a non-matching OS entry runs nothing and leaves the slots untouched. -/
def run_os_list (env : Nat → StatMooncakeEnv) (host : OS) (source : MooncakeSource)
    (running_backend : List Backend) :
    List OS → CBT × Nat → Except RunMatrixError (CBT × Nat)
  | [], st => Except.ok st
  | os :: rest, st =>
      if os = host then do
        let st' ← run_backend_list env source running_backend st
        run_os_list env host source running_backend rest st'
      else
        run_os_list env host source running_backend rest st

/-- `run_matrix` (main.rs:276-532): initialize all twelve slots to
`skip_result`, run the OS×backend×command loops, assemble the `CBT`. -/
def run_matrix (env : Nat → StatMooncakeEnv) (host : OS) (source : MooncakeSource)
    (running_os : List OS) (running_backend : List Backend) :
    Except RunMatrixError CBT :=
  (run_os_list env host source running_backend running_os (CBT.all_skip, 0)).map (fun st => st.1)

/-! ## Build Orchestrator (`build`, main.rs:222-268) -/

/-- `git::GitOpsError` — the `git` module is not present under `src/`;
Modelled from the spec: the Fetch Adapter's clone/checkout operations can
fail, and the error is only logged or wrapped (never inspected), so it is an
abstract payload. -/
structure GitOpsError where
  msg : String
deriving DecidableEq, Repr

/-- `BuildError` (main.rs:210-220); payloads the engine never inspects are
omitted except the wrapped git error. -/
inductive BuildError where
  | IOError
  | ReturnNonZero
  | FromUtf8
  | GitError (e : GitOpsError)
deriving DecidableEq, Repr

/-- Environment for one `build` call: outcomes of its external operations.
`tmpdir_ok` models `tempfile::tempdir()` (main.rs:223); `clone` models
`git::git_clone_to` (main.rs:234); `checkout_ok i` / `download_ok i` model
`git::git_checkout` / `mooncakesio::download_to` for the version/revision at
position `i`; `matrixEnv i` supplies the `stat_mooncake` environments for the
`run_matrix` call at position `i`. -/
structure BuildEnv where
  tmpdir_ok : Bool
  clone : Except GitOpsError Unit
  checkout_ok : Nat → Bool
  download_ok : Nat → Bool
  matrixEnv : Nat → Nat → StatMooncakeEnv

/-- The `for h in rev` loop of `build`'s Git arm (main.rs:236-243): a failed
checkout logs and pushes `None`; otherwise the `run_matrix` result is pushed
through `.ok()` (`Except.toOption`).  `i` is the loop position, keying the
environment. -/
def build_cbts_git (env : BuildEnv) (host : OS) (source : MooncakeSource)
    (running_os : List OS) (running_backend : List Backend) :
    List String → Nat → List (Option CBT)
  | [], _ => []
  | _h :: rest, i =>
      (if env.checkout_ok i then
        (run_matrix (env.matrixEnv i) host source running_os running_backend).toOption
      else none) ::
      build_cbts_git env host source running_os running_backend rest (i+1)

/-- The `for v in version` loop of `build`'s MooncakesIo arm
(main.rs:252-260): a failed download logs and pushes `None`; otherwise the
`run_matrix` result is pushed through `.ok()`. -/
def build_cbts_mooncakesio (env : BuildEnv) (host : OS) (source : MooncakeSource)
    (running_os : List OS) (running_backend : List Backend) :
    List String → Nat → List (Option CBT)
  | [], _ => []
  | _v :: rest, i =>
      (if env.download_ok i then
        (run_matrix (env.matrixEnv i) host source running_os running_backend).toOption
      else none) ::
      build_cbts_mooncakesio env host source running_os running_backend rest (i+1)

/-- `build` (main.rs:222-268): create a temporary directory (IO failure is a
hard error), and per source variant fetch each version/revision and collect
one `Option CBT` per position; a Git clone failure is a hard error for the
whole source.  The returned `BuildState.source` is `source.get_index()`. -/
def build (env : BuildEnv) (host : OS) (source : MooncakeSource) :
    Except BuildError BuildState :=
  if env.tmpdir_ok then
    match source with
    | .Git url rev running_os running_backend index =>
        match env.clone with
        | .error e => Except.error (BuildError.GitError e)
        | .ok _ =>
            let src := MooncakeSource.Git url rev running_os running_backend index
            Except.ok
              { source := src.get_index
                cbts := build_cbts_git env host src running_os running_backend rev 0 }
    | .MooncakesIo name version running_os running_backend index =>
        let src := MooncakeSource.MooncakesIo name version running_os running_backend index
        Except.ok
          { source := src.get_index
            cbts := build_cbts_mooncakesio env host src running_os running_backend version 0 }
  else
    Except.error BuildError.IOError

/-- Whether the fetch of the version/revision at position `i` succeeds for
this source variant: `git_checkout` for Git, `download_to` for MooncakesIo. -/
def fetch_ok (env : BuildEnv) (source : MooncakeSource) (i : Nat) : Bool :=
  match source with
  | .Git _ _ _ _ _ => env.checkout_ok i
  | .MooncakesIo _ _ _ _ _ => env.download_ok i

/-! ## Source Model (`get_mooncake_sources`, main.rs:112-159) -/

/-- `GithubRepo` (util.rs:224-233); the optional OS/backend overrides. -/
structure GithubRepo where
  name : String
  link : String
  branch : String
  running_os : Option (List OS)
  running_backend : Option (List Backend)
deriving DecidableEq, Repr

/-- `Mooncake` (util.rs:235-243). -/
structure Mooncake where
  name : String
  version : String
  running_os : Option (List OS)
  running_backend : Option (List Backend)
deriving DecidableEq, Repr

/-- `ReposConfig` (util.rs:217-222). -/
structure ReposConfig where
  github_repos : List GithubRepo
  mooncakes : List Mooncake
deriving DecidableEq, Repr

/-- `cli::StatSubcommand` — the `cli` module is not present under `src/`;
Modelled from the spec and its uses in main.rs (fields `repo_url`, `file`,
`skip_install`, `skip_update`): an optional ad-hoc repository URL, an
optional declaration file (carried here already parsed, since
`get_repos_config` (util.rs:264-268) parses it infallibly via `unwrap`), and
the two skip flags read by `stat`. -/
structure StatSubcommand where
  repo_url : Option String
  file : Option ReposConfig
  skip_install : Bool
  skip_update : Bool
deriving DecidableEq, Repr

/-- `GetMooncakeSourcesError` (main.rs:94-110); never actually produced by
`get_mooncake_sources`, whose body contains no fallible operation (config
parsing panics rather than erroring). -/
inductive GetMooncakeSourcesError where
  | IOError
  | MooncakesIo
  | MooncakesDB
deriving DecidableEq, Repr

/-- The default OS allow-set (main.rs:116). -/
def default_running_os : List OS := [OS.Linux, OS.MacOS, OS.Windows]

/-- The default backend allow-set (main.rs:117). -/
def default_running_backend : List Backend :=
  [Backend.WasmGC, Backend.Wasm, Backend.Js, Backend.Native]

/-- The `for repo in github_repos` push (main.rs:133-143): index is
`repo_list.len()` at push time. -/
def push_github_repo (acc : List MooncakeSource) (repo : GithubRepo) : List MooncakeSource :=
  acc ++ [MooncakeSource.Git repo.link [repo.branch]
    (repo.running_os.getD default_running_os)
    (repo.running_backend.getD default_running_backend)
    acc.length]

/-- The `for mooncake in mooncakes` push (main.rs:145-155). -/
def push_mooncake (acc : List MooncakeSource) (m : Mooncake) : List MooncakeSource :=
  acc ++ [MooncakeSource.MooncakesIo m.name [m.version]
    (m.running_os.getD default_running_os)
    (m.running_backend.getD default_running_backend)
    acc.length]

/-- `get_mooncake_sources` (main.rs:112-159): optionally inject the ad-hoc
repository at index 0, then append the declared repositories and then the
declared packages, each with index = current list length. -/
def get_mooncake_sources (cmd : StatSubcommand) :
    Except GetMooncakeSourcesError (List MooncakeSource) :=
  let repo_list : List MooncakeSource :=
    match cmd.repo_url with
    | some r => [MooncakeSource.Git r [] default_running_os default_running_backend 0]
    | none => []
  let repo_list :=
    match cmd.file with
    | none => repo_list
    | some repos =>
        let repo_list := repos.github_repos.foldl push_github_repo repo_list
        repos.mooncakes.foldl push_mooncake repo_list
  Except.ok repo_list

/-! ## Dashboard Assembler (`stat`, main.rs:553-633) -/

/-- `MoonOpsErrorKind` (util.rs:15-23). -/
inductive MoonOpsErrorKind where
  | ReturnNonZero
  | IOError
  | FromUtf8Error
deriving DecidableEq, Repr

/-- `MoonOpsError` (util.rs:7-13). -/
structure MoonOpsError where
  cmd : String
  kind : MoonOpsErrorKind
deriving DecidableEq, Repr

/-- `StatErrorKind` (main.rs:541-551). -/
inductive StatErrorKind where
  | MoonOpsError (e : MoonOpsError)
  | GetMooncakeSourcesError (e : GetMooncakeSourcesError)
  | BuildError (e : BuildError)
deriving DecidableEq, Repr

/-- `StatError` (main.rs:534-539). -/
structure StatError where
  kind : StatErrorKind
deriving DecidableEq, Repr

/-- Environment for one `stat` call: run metadata from environment
variables, the host OS, the clock, the outcomes of the toolchain
install/update/version-discovery calls in call order (stable channel first,
then bleeding), and a `BuildEnv` per (channel, source position). -/
structure StatEnv where
  run_id : Option String
  run_number : Option String
  start_time : String
  host : OS
  install_stable : Except MoonOpsError Unit
  update_stable : Except MoonOpsError Unit
  moon_version_stable : Except MoonOpsError String
  moonc_version_stable : Except MoonOpsError String
  install_bleeding : Except MoonOpsError Unit
  update_bleeding : Except MoonOpsError Unit
  moon_version_bleeding : Except MoonOpsError String
  moonc_version_bleeding : Except MoonOpsError String
  stable_build : Nat → BuildEnv
  bleeding_build : Nat → BuildEnv

/-- One conditional toolchain operation in `stat`
(`if !cmd.skip_install { install_stable_release()? }` and the three
analogous steps): when the guard is false the operation is not performed. -/
def guard_op (enabled : Bool) (op : Except MoonOpsError Unit) : Except StatError Unit :=
  if enabled then op.mapError (fun e => StatError.mk (StatErrorKind.MoonOpsError e))
  else Except.ok ()

/-- The `for source in mooncake_sources.iter()` loop of `stat`
(main.rs:584-589 and main.rs:615-620): one `build` per source in order, `?`
propagating the first error; `i` is the source position, keying the
per-source `BuildEnv`. -/
def build_all (envs : Nat → BuildEnv) (host : OS) :
    List MooncakeSource → Nat → Except BuildError (List BuildState)
  | [], _ => Except.ok []
  | s :: rest, i =>
      match build (envs i) host s with
      | .error e => Except.error e
      | .ok b =>
          match build_all envs host rest (i+1) with
          | .error e => Except.error e
          | .ok bs => Except.ok (b :: bs)

/-- `stat` (main.rs:553-633): read run metadata (default `"0"`), run the
stable channel prelude (install unless skipped, update unless skipped,
discover both version strings), build every source against the stable
toolchain, repeat for the bleeding channel, and assemble the dashboard. -/
def stat (env : StatEnv) (cmd : StatSubcommand) : Except StatError MoonBuildDashboard :=
  let run_id := env.run_id.getD "0"
  let run_number := env.run_number.getD "0"
  match guard_op (!cmd.skip_install) env.install_stable with
  | .error e => Except.error e
  | .ok _ =>
  match guard_op (!cmd.skip_update) env.update_stable with
  | .error e => Except.error e
  | .ok _ =>
  match env.moon_version_stable with
  | .error e => Except.error (StatError.mk (StatErrorKind.MoonOpsError e))
  | .ok moon_version_s =>
  match env.moonc_version_stable with
  | .error e => Except.error (StatError.mk (StatErrorKind.MoonOpsError e))
  | .ok moonc_version_s =>
  match get_mooncake_sources cmd with
  | .error e => Except.error (StatError.mk (StatErrorKind.GetMooncakeSourcesError e))
  | .ok mooncake_sources =>
  match build_all env.stable_build env.host mooncake_sources 0 with
  | .error e => Except.error (StatError.mk (StatErrorKind.BuildError e))
  | .ok stable_release_data =>
  match guard_op (!cmd.skip_install) env.install_bleeding with
  | .error e => Except.error e
  | .ok _ =>
  match guard_op (!cmd.skip_update) env.update_bleeding with
  | .error e => Except.error e
  | .ok _ =>
  match env.moon_version_bleeding with
  | .error e => Except.error (StatError.mk (StatErrorKind.MoonOpsError e))
  | .ok moon_version_b =>
  match env.moonc_version_bleeding with
  | .error e => Except.error (StatError.mk (StatErrorKind.MoonOpsError e))
  | .ok moonc_version_b =>
  match build_all env.bleeding_build env.host mooncake_sources 0 with
  | .error e => Except.error (StatError.mk (StatErrorKind.BuildError e))
  | .ok bleeding_release_data =>
  Except.ok
    { run_id := run_id
      run_number := run_number
      start_time := env.start_time
      sources := mooncake_sources
      stable_toolchain_version :=
        { label := ToolChainLabel.Stable
          moon_version := moon_version_s
          moonc_version := moonc_version_s }
      stable_release_data := stable_release_data
      bleeding_toolchain_version :=
        { label := ToolChainLabel.Bleeding
          moon_version := moon_version_b
          moonc_version := moonc_version_b }
      bleeding_release_data := bleeding_release_data }

/-! ## mooncakesio (`src/mooncakesio.rs`) -/

/-- One parsed line of a registry index file: `MooncakeInfo`
(mooncakesio.rs:148-152). -/
structure MooncakeInfo where
  version : String
  keywords : Option (List String)
deriving DecidableEq, Repr

/-- The `BTreeMap<String, Vec<String>>` of `MooncakesDB`
(mooncakesio.rs:113-116), modelled as a lookup function. -/
def MooncakesDBMap := String → Option (List String)

/-- `BTreeMap::insert`: point update (a later insert with the same key
replaces the earlier value). -/
def db_insert (db : MooncakesDBMap) (k : String) (v : List String) : MooncakesDBMap :=
  fun n => if n = k then some v else db n

/-- The empty database. -/
def db_empty : MooncakesDBMap := fun _ => none

/-- The keyword check on one index line (mooncakesio.rs:183-187): the line's
`keywords`, when present, contains `"mooncakes-test"`. -/
def line_flags_test (info : MooncakeInfo) : Bool :=
  match info.keywords with
  | some ks => ks.contains "mooncakes-test"
  | none => false

/-- One iteration of the line loop of `get_all_mooncakes`
(mooncakesio.rs:179-188): push the line's version and accumulate the
mooncakes-test flag. -/
def scan_step (acc : List String × Bool) (info : MooncakeInfo) : List String × Bool :=
  (acc.1 ++ [info.version], acc.2 || line_flags_test info)

/-- The per-entry line loop of `get_all_mooncakes` (mooncakesio.rs:177-188):
collect each line's `version` in order and flag the package if any line's
`keywords` contains `"mooncakes-test"`. -/
def scan_index_lines (lines : List MooncakeInfo) : List String × Bool :=
  lines.foldl scan_step ([], false)

/-- The per-entry step of `get_all_mooncakes` (mooncakesio.rs:189-191):
insert the collected versions under the package name unless the entry was
flagged. -/
def mooncakes_fold_step (db : MooncakesDBMap) (e : String × List MooncakeInfo) :
    MooncakesDBMap :=
  let scanned := scan_index_lines e.2
  if !scanned.2 then db_insert db e.1 scanned.1 else db

/-- `get_all_mooncakes` (mooncakesio.rs:163-194), over the scanned index
entries (package name, parsed lines of its `.index` file) in walk order.
Line parsing (`serde_json::from_str`, which makes the whole call fail on a
malformed line) is external and the input is carried already parsed.  An
entry is inserted with its versions in file line order unless it was flagged
as a mooncakes-test package. -/
def get_all_mooncakes (entries : List (String × List MooncakeInfo)) : MooncakesDBMap :=
  entries.foldl mooncakes_fold_step db_empty

/-- Outcome of `MooncakesDB::get_latest_version` (mooncakesio.rs:131-141):
`panicked` models the `versions.last().unwrap()` abort on an empty version
list. -/
inductive GetLatestOutcome where
  | errNotFound
  | found (v : String)
  | panicked
deriving DecidableEq, Repr

/-- `MooncakesDB::get_latest_version` (mooncakesio.rs:131-141):
`self.db.get(name).map(|versions| versions.last().unwrap()).ok_or(NotFound)`. -/
def get_latest_version (db : MooncakesDBMap) (name : String) : GetLatestOutcome :=
  match db name with
  | none => GetLatestOutcome.errNotFound
  | some versions =>
      match versions.getLast? with
      | none => GetLatestOutcome.panicked
      | some v => GetLatestOutcome.found v

/-- `MooncakesDB::contains_key` (mooncakesio.rs:143-145). -/
def db_contains_key (db : MooncakesDBMap) (name : String) : Bool :=
  (db name).isSome

/-! ## Theorems -/

/-- C5: for every invocation of the command runner `run_moon` where the
external process starts and exits, a non-zero exit status is not reported as
an error: `run_moon` returns `Ok` with `success` equal to the process's
exit-status success flag (in particular `success = false` on a non-zero
exit), and an `Err` is returned exactly when the process cannot be started
(IO error). -/
theorem run_moon_exit_status_not_error :
    (∀ (success : Bool) (out err : String) (elapsed : Nat) (args : List String),
      run_moon (SpawnResult.exited success out err) elapsed args =
        Except.ok { duration := elapsed, stdout := out, stderr := err, success := success }) ∧
    (∀ (elapsed : Nat) (args : List String),
      run_moon SpawnResult.ioError elapsed args = Except.error RunMoonError.IOError) :=
  ⟨fun _ _ _ _ _ => rfl, fun _ _ => rfl⟩

/-- C6: for every environment, host, source and backend allow-set, running
the Matrix Runner with an empty OS allow-set returns a CBT in which every one
of the twelve (command, backend) slots is the Skipped sentinel — and the
sentinel is status `Skipped`, zero elapsed, empty `start_time`, empty
`stdout` and empty `stderr`. -/
theorem run_matrix_empty_os_all_skipped (env : Nat → StatMooncakeEnv) (host : OS)
    (source : MooncakeSource) (running_backend : List Backend) :
    run_matrix env host source [] running_backend =
      Except.ok
        { check := { wasm := ExecuteResult.skip_result
                     wasm_gc := ExecuteResult.skip_result
                     js := ExecuteResult.skip_result
                     native := ExecuteResult.skip_result }
          build := { wasm := ExecuteResult.skip_result
                     wasm_gc := ExecuteResult.skip_result
                     js := ExecuteResult.skip_result
                     native := ExecuteResult.skip_result }
          test := { wasm := ExecuteResult.skip_result
                    wasm_gc := ExecuteResult.skip_result
                    js := ExecuteResult.skip_result
                    native := ExecuteResult.skip_result } } ∧
    ExecuteResult.skip_result =
      { status := Status.Skipped, start_time := "", elapsed := 0, stdout := "", stderr := "" } :=
  ⟨rfl, rfl⟩

/-- C3 counterexample: with a command runner that cannot start the external
process (`cmd_spawn = ioError`), `stat_mooncake` does NOT return `Err`: it
returns `Ok` with the failure recorded as an ordinary `Failure` cell,
contradicting the claim that a spawn failure propagates as a hard error out
of the Matrix Runner. -/
theorem stat_mooncake_spawn_failure_is_ok :
    stat_mooncake
      { clean_spawn := SpawnResult.ioError
        clean_elapsed := 0
        cmd_spawn := SpawnResult.ioError
        cmd_elapsed := 7
        start_time := "2024-01-01 00:00:00.000" }
      (MooncakeSource.Git "https://example.com/r" [] [] [] 0)
      (MoonCommand.Check Backend.Wasm) =
    Except.ok
      { status := Status.Failure
        start_time := "2024-01-01 00:00:00.000"
        elapsed := 0
        stdout := ""
        stderr := "" } :=
  rfl

/-- C3 amended: a spawn/IO failure of the underlying command runner does not
propagate out of `stat_mooncake` at all: `stat_mooncake` always returns `Ok`,
and when the process cannot be started the outcome is recorded as an ordinary
`Failure` cell (status `Failure`, zero elapsed, empty stdout/stderr) inside
the CBT. -/
theorem stat_mooncake_spawn_failure_recorded (env : StatMooncakeEnv)
    (source : MooncakeSource) (cmd : MoonCommand) :
    (∃ r, stat_mooncake env source cmd = Except.ok r) ∧
    (env.cmd_spawn = SpawnResult.ioError →
      stat_mooncake env source cmd =
        Except.ok
          { status := Status.Failure
            start_time := env.start_time
            elapsed := 0
            stdout := ""
            stderr := "" }) := by
  constructor
  · cases h : env.cmd_spawn <;>
      simp [stat_mooncake, run_moon, h, Except.mapError, Except.toOption]
  · intro h
    simp [stat_mooncake, run_moon, h, Except.mapError, Except.toOption]

/-- Witness for C3's amended theorem at a concrete spawn-failure input. -/
theorem stat_mooncake_spawn_failure_recorded_witness :
    stat_mooncake
      { clean_spawn := SpawnResult.exited true "" ""
        clean_elapsed := 3
        cmd_spawn := SpawnResult.ioError
        cmd_elapsed := 11
        start_time := "t0" }
      (MooncakeSource.MooncakesIo "user/pkg" ["0.1.0"] [] [] 2)
      (MoonCommand.Build Backend.Js) =
    Except.ok
      { status := Status.Failure, start_time := "t0", elapsed := 0, stdout := "", stderr := "" } :=
  (stat_mooncake_spawn_failure_recorded _ _ _).2 rfl

/-- C4 (code bug): the `Backend` enum declared in `src/dashboard.rs` has
exactly the three variants `Wasm`, `WasmGC`, `Js` — none of its flag strings
is `"native"` — while `src/main.rs` requires a fourth variant: its default
backend allow-set contains `Backend::Native`, whose canonical lowercase flag
is `"native"`.  The declaration contradicts its own callers (and the spec's
four-variant enum). -/
theorem backend_decl_missing_native :
    (∀ b : BackendDecl,
      b ∈ [BackendDecl.Wasm, BackendDecl.WasmGC, BackendDecl.Js]) ∧
    (∀ b : BackendDecl, (b.to_flag == "native") = false) ∧
    Backend.Native ∈ default_running_backend ∧
    Backend.Native.to_flag = "native" := by
  refine ⟨fun b => ?_, fun b => ?_, ?_, rfl⟩
  · cases b <;> decide
  · cases b <;> decide
  · simp [default_running_backend]

/-- C10: `MooncakesDB::get_latest_version` returns the NotFound error exactly
when the queried name is absent from the database; when the name is present
it returns the last element of that name's version list; and when the stored
version list is empty, the unguarded `unwrap` aborts (modelled as the
`panicked` outcome), so non-emptiness of every stored list is a genuine
precondition. -/
theorem get_latest_version_spec (db : MooncakesDBMap) (name : String) :
    (get_latest_version db name = GetLatestOutcome.errNotFound ↔ db name = none) ∧
    (∀ vs v, db name = some vs → vs.getLast? = some v →
      get_latest_version db name = GetLatestOutcome.found v) ∧
    (db name = some [] → get_latest_version db name = GetLatestOutcome.panicked) := by
  refine ⟨⟨fun h => ?_, fun h => ?_⟩, fun vs v hvs hv => ?_, fun h => ?_⟩
  · by_contra hne
    cases hdb : db name with
    | none => exact hne hdb
    | some vs =>
        simp only [get_latest_version, hdb] at h
        cases hlast : vs.getLast? <;> simp [hlast] at h
  · simp [get_latest_version, h]
  · simp [get_latest_version, hvs, hv]
  · simp [get_latest_version, h]

/-- Witness for C10 at a concrete database: a present name with versions, a
present name with an empty list, and an absent name. -/
theorem get_latest_version_spec_witness :
    get_latest_version (db_insert (db_insert db_empty "a/b" ["1.0.0", "2.0.0"]) "a/c" []) "a/b" =
      GetLatestOutcome.found "2.0.0" ∧
    get_latest_version (db_insert (db_insert db_empty "a/b" ["1.0.0", "2.0.0"]) "a/c" []) "a/c" =
      GetLatestOutcome.panicked ∧
    get_latest_version (db_insert (db_insert db_empty "a/b" ["1.0.0", "2.0.0"]) "a/c" []) "a/d" =
      GetLatestOutcome.errNotFound :=
  ⟨(get_latest_version_spec _ "a/b").2.1 ["1.0.0", "2.0.0"] "2.0.0" (by decide) rfl,
   (get_latest_version_spec _ "a/c").2.2 (by decide),
   (get_latest_version_spec _ "a/d").1.mpr (by decide)⟩

lemma build_cbts_git_length (env : BuildEnv) (host : OS) (source : MooncakeSource)
    (ros : List OS) (rbs : List Backend) :
    ∀ (revs : List String) (k : Nat),
      (build_cbts_git env host source ros rbs revs k).length = revs.length := by
  intro revs
  induction revs with
  | nil => intro k; rfl
  | cons r rest ih => intro k; simp [build_cbts_git, ih (k+1)]

lemma build_cbts_git_get (env : BuildEnv) (host : OS) (source : MooncakeSource)
    (ros : List OS) (rbs : List Backend) :
    ∀ (revs : List String) (k j : Nat), j < revs.length →
      (build_cbts_git env host source ros rbs revs k)[j]? =
        some (if env.checkout_ok (k + j) then
          (run_matrix (env.matrixEnv (k + j)) host source ros rbs).toOption
        else none) := by
  intro revs
  induction revs with
  | nil => intro k j hj; exact absurd hj (by simp)
  | cons r rest ih =>
      intro k j hj
      cases j with
      | zero => simp [build_cbts_git]
      | succ j' =>
          have h1 : j' < rest.length := by simpa using hj
          have h2 := ih (k+1) j' h1
          simp only [build_cbts_git, List.getElem?_cons_succ]
          rw [h2]
          have : k + 1 + j' = k + (j' + 1) := by omega
          rw [this]

lemma build_cbts_mooncakesio_length (env : BuildEnv) (host : OS) (source : MooncakeSource)
    (ros : List OS) (rbs : List Backend) :
    ∀ (vers : List String) (k : Nat),
      (build_cbts_mooncakesio env host source ros rbs vers k).length = vers.length := by
  intro vers
  induction vers with
  | nil => intro k; rfl
  | cons v rest ih => intro k; simp [build_cbts_mooncakesio, ih (k+1)]

lemma build_cbts_mooncakesio_get (env : BuildEnv) (host : OS) (source : MooncakeSource)
    (ros : List OS) (rbs : List Backend) :
    ∀ (vers : List String) (k j : Nat), j < vers.length →
      (build_cbts_mooncakesio env host source ros rbs vers k)[j]? =
        some (if env.download_ok (k + j) then
          (run_matrix (env.matrixEnv (k + j)) host source ros rbs).toOption
        else none) := by
  intro vers
  induction vers with
  | nil => intro k j hj; exact absurd hj (by simp)
  | cons v rest ih =>
      intro k j hj
      cases j with
      | zero => simp [build_cbts_mooncakesio]
      | succ j' =>
          have h1 : j' < rest.length := by simpa using hj
          have h2 := ih (k+1) j' h1
          simp only [build_cbts_mooncakesio, List.getElem?_cons_succ]
          rw [h2]
          have : k + 1 + j' = k + (j' + 1) := by omega
          rw [this]

/-- When `build` succeeds, the entry of `cbts` at each in-range position is
fully determined: the `run_matrix` result (through `.ok()`) if the fetch at
that position succeeded, `None` otherwise. -/
lemma build_cbts_characterization (env : BuildEnv) (host : OS)
    (source : MooncakeSource) (bs : BuildState)
    (h : build env host source = Except.ok bs) :
    bs.cbts.length = source.fetch_list.length ∧
    ∀ i, i < source.fetch_list.length →
      bs.cbts[i]? =
        some (if fetch_ok env source i then
          (run_matrix (env.matrixEnv i) host source
            (match source with
             | .Git _ _ ros _ _ => ros
             | .MooncakesIo _ _ ros _ _ => ros)
            (match source with
             | .Git _ _ _ rbs _ => rbs
             | .MooncakesIo _ _ _ rbs _ => rbs)).toOption
        else none) := by
  unfold build at h
  by_cases htmp : env.tmpdir_ok
  · rw [if_pos htmp] at h
    cases source with
    | Git url rev ros rbs index =>
        cases hclone : env.clone with
        | error e => rw [hclone] at h; exact Except.noConfusion h
        | ok u =>
            rw [hclone] at h
            have hbs : bs =
                { source := (MooncakeSource.Git url rev ros rbs index).get_index
                  cbts := build_cbts_git env host
                    (MooncakeSource.Git url rev ros rbs index) ros rbs rev 0 } := by
              cases h; rfl
            subst hbs
            refine ⟨build_cbts_git_length env host _ ros rbs rev 0, fun i hi => ?_⟩
            have := build_cbts_git_get env host
              (MooncakeSource.Git url rev ros rbs index) ros rbs rev 0 i hi
            simpa [fetch_ok] using this
    | MooncakesIo name version ros rbs index =>
        have hbs : bs =
            { source := (MooncakeSource.MooncakesIo name version ros rbs index).get_index
              cbts := build_cbts_mooncakesio env host
                (MooncakeSource.MooncakesIo name version ros rbs index) ros rbs version 0 } := by
          cases h; rfl
        subst hbs
        refine ⟨build_cbts_mooncakesio_length env host _ ros rbs version 0, fun i hi => ?_⟩
        have := build_cbts_mooncakesio_get env host
          (MooncakeSource.MooncakesIo name version ros rbs index) ros rbs version 0 i hi
        simpa [fetch_ok] using this
  · rw [if_neg htmp] at h
    exact Except.noConfusion h

/-- C2: whenever `build` returns `Ok`, the returned `BuildState`'s `cbts`
list has exactly one entry per declared version (MooncakesIo) or revision
(Git), in declaration order, and a failed fetch of the version/revision at a
position contributes a `None` entry at that position rather than shortening
the list. -/
theorem build_one_entry_per_version (env : BuildEnv) (host : OS)
    (source : MooncakeSource) (bs : BuildState)
    (h : build env host source = Except.ok bs) :
    bs.cbts.length = source.fetch_list.length ∧
    ∀ i, i < source.fetch_list.length → fetch_ok env source i = false →
      bs.cbts[i]? = some none := by
  obtain ⟨hlen, hget⟩ := build_cbts_characterization env host source bs h
  refine ⟨hlen, fun i hi hfail => ?_⟩
  rw [hget i hi, hfail]
  simp

/-- Witness for C2: a one-revision Git source whose checkout fails yields a
single `None` entry. -/
theorem build_one_entry_per_version_witness :
    build
      { tmpdir_ok := true
        clone := Except.ok ()
        checkout_ok := fun _ => false
        download_ok := fun _ => false
        matrixEnv := fun _ _ =>
          { clean_spawn := SpawnResult.ioError, clean_elapsed := 0
            cmd_spawn := SpawnResult.ioError, cmd_elapsed := 0, start_time := "" } }
      OS.Linux (MooncakeSource.Git "u" ["r"] [] [] 5) =
      Except.ok { source := 5, cbts := [none] } ∧
    (({ source := 5, cbts := [none] } : BuildState).cbts.length =
      (MooncakeSource.Git "u" ["r"] [] [] 5).fetch_list.length ∧
     ∀ i, i < (MooncakeSource.Git "u" ["r"] [] [] 5).fetch_list.length →
      fetch_ok
        { tmpdir_ok := true
          clone := Except.ok ()
          checkout_ok := fun _ => false
          download_ok := fun _ => false
          matrixEnv := fun _ _ =>
            { clean_spawn := SpawnResult.ioError, clean_elapsed := 0
              cmd_spawn := SpawnResult.ioError, cmd_elapsed := 0, start_time := "" } }
        (MooncakeSource.Git "u" ["r"] [] [] 5) i = false →
      (({ source := 5, cbts := [none] } : BuildState).cbts)[i]? = some none) :=
  ⟨rfl, build_one_entry_per_version _ OS.Linux _ { source := 5, cbts := [none] } rfl⟩

/-- C8: in `build`, when the fetch at position `i` fails while everything
else about the environment is unchanged, the `cbts` entry at position `i` is
`None` and the entry at every other position is exactly what it is in the
run where position `i` did not fail. -/
theorem build_fetch_failure_frame (env env' : BuildEnv) (host : OS)
    (source : MooncakeSource) (i : Nat) (bs bs' : BuildState)
    (hagree : ∀ j, j ≠ i →
      env.checkout_ok j = env'.checkout_ok j ∧
      env.download_ok j = env'.download_ok j ∧
      env.matrixEnv j = env'.matrixEnv j)
    (hfail : fetch_ok env source i = false)
    (hi : i < source.fetch_list.length)
    (h : build env host source = Except.ok bs)
    (h' : build env' host source = Except.ok bs') :
    bs.cbts[i]? = some none ∧
    ∀ j, j ≠ i → bs.cbts[j]? = bs'.cbts[j]? := by
  obtain ⟨hlen, hget⟩ := build_cbts_characterization env host source bs h
  obtain ⟨hlen', hget'⟩ := build_cbts_characterization env' host source bs' h'
  constructor
  · rw [hget i hi, hfail]; simp
  · intro j hj
    by_cases hjlt : j < source.fetch_list.length
    · rw [hget j hjlt, hget' j hjlt]
      obtain ⟨hco, hdl, hme⟩ := hagree j hj
      cases source with
      | Git url rev ros rbs index => simp only [fetch_ok] at *; rw [hco, hme]
      | MooncakesIo name version ros rbs index => simp only [fetch_ok] at *; rw [hdl, hme]
    · have hna : bs.cbts.length ≤ j := by omega
      have hnb : bs'.cbts.length ≤ j := by omega
      rw [List.getElem?_eq_none hna, List.getElem?_eq_none hnb]

/-- Witness for C8: a two-revision Git source; in the failing run the
checkout at position 0 fails, in the other run it succeeds; position 0 is
`None` in the failing run and every other position agrees across runs. -/
theorem build_fetch_failure_frame_witness :
    (({ source := 0, cbts := [none, some CBT.all_skip] } : BuildState).cbts)[0]? = some none ∧
    ∀ j, j ≠ 0 →
      (({ source := 0, cbts := [none, some CBT.all_skip] } : BuildState).cbts)[j]? =
      (({ source := 0, cbts := [some CBT.all_skip, some CBT.all_skip] } : BuildState).cbts)[j]? :=
  build_fetch_failure_frame
    { tmpdir_ok := true
      clone := Except.ok ()
      checkout_ok := fun j => decide (j ≠ 0)
      download_ok := fun _ => true
      matrixEnv := fun _ _ =>
        { clean_spawn := SpawnResult.ioError, clean_elapsed := 0
          cmd_spawn := SpawnResult.ioError, cmd_elapsed := 0, start_time := "" } }
    { tmpdir_ok := true
      clone := Except.ok ()
      checkout_ok := fun _ => true
      download_ok := fun _ => true
      matrixEnv := fun _ _ =>
        { clean_spawn := SpawnResult.ioError, clean_elapsed := 0
          cmd_spawn := SpawnResult.ioError, cmd_elapsed := 0, start_time := "" } }
    OS.Linux (MooncakeSource.Git "u" ["a", "b"] [] [] 0) 0
    { source := 0, cbts := [none, some CBT.all_skip] }
    { source := 0, cbts := [some CBT.all_skip, some CBT.all_skip] }
    (fun j hj => ⟨by simp [hj], rfl, rfl⟩)
    (by decide) (by decide) rfl rfl

/-- Every element's stored index equals its position in the list. -/
def indices_positional (l : List MooncakeSource) : Prop :=
  ∀ (i : Nat) (s : MooncakeSource), l[i]? = some s → s.get_index = i

lemma indices_positional_append (l : List MooncakeSource) (s : MooncakeSource)
    (hl : indices_positional l) (hs : s.get_index = l.length) :
    indices_positional (l ++ [s]) := by
  intro i t h
  by_cases hi : i < l.length
  · rw [List.getElem?_append_left hi] at h
    exact hl i t h
  · rw [List.getElem?_append_right (Nat.le_of_not_lt hi)] at h
    have hlen : i < l.length + 1 := by
      have := List.getElem?_eq_some_iff.mp h
      have h2 : i - l.length < 1 := by simpa using this.1
      omega
    have hieq : i = l.length := by omega
    subst hieq
    simp at h
    subst h
    exact hs

lemma foldl_push_indices {α : Type} (g : List MooncakeSource → α → List MooncakeSource)
    (hg : ∀ acc a, ∃ s, g acc a = acc ++ [s] ∧ s.get_index = acc.length) :
    ∀ (xs : List α) (acc : List MooncakeSource),
      indices_positional acc → indices_positional (xs.foldl g acc) := by
  intro xs
  induction xs with
  | nil => intro acc h; exact h
  | cons x rest ih =>
      intro acc h
      obtain ⟨s, hgx, hsi⟩ := hg acc x
      have := indices_positional_append acc s h hsi
      rw [List.foldl_cons, hgx]
      exact ih (acc ++ [s]) this

lemma foldl_push_extends {α : Type} (g : List MooncakeSource → α → List MooncakeSource)
    (hg : ∀ acc a, ∃ s, g acc a = acc ++ [s]) :
    ∀ (xs : List α) (acc : List MooncakeSource),
      ∃ t, xs.foldl g acc = acc ++ t := by
  intro xs
  induction xs with
  | nil => intro acc; exact ⟨[], by simp⟩
  | cons x rest ih =>
      intro acc
      obtain ⟨s, hgx⟩ := hg acc x
      obtain ⟨t, ht⟩ := ih (acc ++ [s])
      exact ⟨[s] ++ t, by rw [List.foldl_cons, hgx, ht, List.append_assoc]⟩

/-- C7: `get_mooncake_sources` produces an ordered source list in which
every source's stored index equals its position (indices assigned
sequentially from zero, repositories first and then packages in declaration
order), hence no two sources share an index; and when an ad-hoc repository
URL is supplied it sits at index 0. -/
theorem get_mooncake_sources_indices (cmd : StatSubcommand)
    (l : List MooncakeSource)
    (h : get_mooncake_sources cmd = Except.ok l) :
    (∀ (i : Nat) (s : MooncakeSource), l[i]? = some s → s.get_index = i) ∧
    (∀ (i j : Nat) (s t : MooncakeSource), l[i]? = some s → l[j]? = some t → i ≠ j →
      s.get_index ≠ t.get_index) ∧
    (∀ r, cmd.repo_url = some r →
      l[0]? = some (MooncakeSource.Git r [] default_running_os default_running_backend 0)) := by
  have hbase : indices_positional
      (match cmd.repo_url with
       | some r => [MooncakeSource.Git r [] default_running_os default_running_backend 0]
       | none => []) := by
    cases hr : cmd.repo_url with
    | none => intro i s hs; simp at hs
    | some r =>
        intro i s hs
        cases i with
        | zero => simp at hs; subst hs; rfl
        | succ i' => simp at hs
  have hrepo : ∀ (acc : List MooncakeSource) (a : GithubRepo),
      ∃ s, push_github_repo acc a = acc ++ [s] ∧ s.get_index = acc.length :=
    fun acc a => ⟨_, rfl, rfl⟩
  have hcake : ∀ (acc : List MooncakeSource) (a : Mooncake),
      ∃ s, push_mooncake acc a = acc ++ [s] ∧ s.get_index = acc.length :=
    fun acc a => ⟨_, rfl, rfl⟩
  have hresult : indices_positional l ∧
      (∀ r, cmd.repo_url = some r →
        l[0]? = some (MooncakeSource.Git r [] default_running_os default_running_backend 0)) := by
    unfold get_mooncake_sources at h
    cases hf : cmd.file with
    | none =>
        rw [hf] at h
        simp only at h
        cases h
        constructor
        · exact hbase
        · intro r hr
          rw [hr]
          simp [hr]
    | some repos =>
        rw [hf] at h
        simp only at h
        cases h
        constructor
        · exact foldl_push_indices push_mooncake hcake repos.mooncakes _
            (foldl_push_indices push_github_repo hrepo repos.github_repos _ hbase)
        · intro r hr
          obtain ⟨t1, ht1⟩ := foldl_push_extends push_github_repo
            (fun acc a => ⟨_, rfl⟩) repos.github_repos
            (match cmd.repo_url with
             | some r => [MooncakeSource.Git r [] default_running_os default_running_backend 0]
             | none => [])
          obtain ⟨t2, ht2⟩ := foldl_push_extends push_mooncake
            (fun acc a => ⟨_, rfl⟩) repos.mooncakes _
          rw [ht2, ht1, hr]
          simp [hr]
  obtain ⟨hpos, hhead⟩ := hresult
  refine ⟨hpos, fun i j s t hi hj hij => ?_, hhead⟩
  rw [hpos i s hi, hpos j t hj]
  exact hij

/-- Witness for C7: an ad-hoc URL plus one declared repository and one
declared package. -/
theorem get_mooncake_sources_indices_witness :
    (∀ (i : Nat) (s : MooncakeSource),
      ([MooncakeSource.Git "u0" [] default_running_os default_running_backend 0,
        MooncakeSource.Git "u1" ["main"] default_running_os default_running_backend 1,
        MooncakeSource.MooncakesIo "p" ["0.1.0"] default_running_os default_running_backend 2] :
        List MooncakeSource)[i]? = some s → s.get_index = i) ∧
    (∀ (i j : Nat) (s t : MooncakeSource),
      ([MooncakeSource.Git "u0" [] default_running_os default_running_backend 0,
        MooncakeSource.Git "u1" ["main"] default_running_os default_running_backend 1,
        MooncakeSource.MooncakesIo "p" ["0.1.0"] default_running_os default_running_backend 2] :
        List MooncakeSource)[i]? = some s →
      ([MooncakeSource.Git "u0" [] default_running_os default_running_backend 0,
        MooncakeSource.Git "u1" ["main"] default_running_os default_running_backend 1,
        MooncakeSource.MooncakesIo "p" ["0.1.0"] default_running_os default_running_backend 2] :
        List MooncakeSource)[j]? = some t → i ≠ j → s.get_index ≠ t.get_index) ∧
    (∀ r, (some "u0" : Option String) = some r →
      ([MooncakeSource.Git "u0" [] default_running_os default_running_backend 0,
        MooncakeSource.Git "u1" ["main"] default_running_os default_running_backend 1,
        MooncakeSource.MooncakesIo "p" ["0.1.0"] default_running_os default_running_backend 2] :
        List MooncakeSource)[0]? =
        some (MooncakeSource.Git r [] default_running_os default_running_backend 0)) :=
  get_mooncake_sources_indices
    { repo_url := some "u0"
      file := some
        { github_repos := [{ name := "r1", link := "u1", branch := "main",
                             running_os := none, running_backend := none }]
          mooncakes := [{ name := "p", version := "0.1.0",
                          running_os := none, running_backend := none }] }
      skip_install := false
      skip_update := false }
    _ rfl

lemma build_source_index (env : BuildEnv) (host : OS) (source : MooncakeSource)
    (bs : BuildState) (h : build env host source = Except.ok bs) :
    bs.source = source.get_index := by
  unfold build at h
  by_cases htmp : env.tmpdir_ok
  · rw [if_pos htmp] at h
    cases source with
    | Git url rev ros rbs index =>
        cases hclone : env.clone with
        | error e => rw [hclone] at h; exact Except.noConfusion h
        | ok u => rw [hclone] at h; cases h; rfl
    | MooncakesIo name version ros rbs index => cases h; rfl
  · rw [if_neg htmp] at h
    exact Except.noConfusion h

lemma build_all_spec (envs : Nat → BuildEnv) (host : OS) :
    ∀ (srcs : List MooncakeSource) (k : Nat) (l : List BuildState),
      build_all envs host srcs k = Except.ok l →
      l.length = srcs.length ∧
      ∀ (i : Nat) (b : BuildState) (s : MooncakeSource),
        l[i]? = some b → srcs[i]? = some s → b.source = s.get_index := by
  intro srcs
  induction srcs with
  | nil =>
      intro k l h
      cases h
      exact ⟨rfl, fun i b s hb => by simp at hb⟩
  | cons src rest ih =>
      intro k l h
      rw [build_all] at h
      cases hb : build (envs k) host src with
      | error e => rw [hb] at h; exact Except.noConfusion h
      | ok b0 =>
          rw [hb] at h
          cases hrest : build_all envs host rest (k+1) with
          | error e => rw [hrest] at h; exact Except.noConfusion h
          | ok l0 =>
              rw [hrest] at h
              cases h
              obtain ⟨hlen, hget⟩ := ih (k+1) l0 hrest
              refine ⟨by simp [hlen], fun i b s hbi hsi => ?_⟩
              cases i with
              | zero =>
                  simp at hbi hsi
                  subst hbi; subst hsi
                  exact build_source_index (envs k) host src b0 hb
              | succ i' =>
                  simp only [List.getElem?_cons_succ] at hbi hsi
                  exact hget i' b s hbi hsi

/-- C1: for every dashboard produced by a successful run of `stat`, the
stable and bleeding release-data lists both have the same length as the
source list, and at every index the `BuildState.source` field equals the
stored index of the source at the same position. -/
theorem stat_dashboard_alignment (env : StatEnv) (cmd : StatSubcommand)
    (d : MoonBuildDashboard) (h : stat env cmd = Except.ok d) :
    d.stable_release_data.length = d.sources.length ∧
    d.bleeding_release_data.length = d.sources.length ∧
    (∀ (i : Nat) (b : BuildState) (s : MooncakeSource),
      d.stable_release_data[i]? = some b → d.sources[i]? = some s →
      b.source = s.get_index) ∧
    (∀ (i : Nat) (b : BuildState) (s : MooncakeSource),
      d.bleeding_release_data[i]? = some b → d.sources[i]? = some s →
      b.source = s.get_index) := by
  unfold stat at h
  cases h1 : guard_op (!cmd.skip_install) env.install_stable with
  | error e => rw [h1] at h; exact Except.noConfusion h
  | ok u1 =>
  simp only [h1] at h
  cases h2 : guard_op (!cmd.skip_update) env.update_stable with
  | error e => rw [h2] at h; exact Except.noConfusion h
  | ok u2 =>
  simp only [h2] at h
  cases h3 : env.moon_version_stable with
  | error e => rw [h3] at h; exact Except.noConfusion h
  | ok mv1 =>
  simp only [h3] at h
  cases h4 : env.moonc_version_stable with
  | error e => rw [h4] at h; exact Except.noConfusion h
  | ok mc1 =>
  simp only [h4] at h
  cases h5 : get_mooncake_sources cmd with
  | error e => rw [h5] at h; exact Except.noConfusion h
  | ok srcs =>
  simp only [h5] at h
  cases h6 : build_all env.stable_build env.host srcs 0 with
  | error e => rw [h6] at h; exact Except.noConfusion h
  | ok stable_data =>
  simp only [h6] at h
  cases h7 : guard_op (!cmd.skip_install) env.install_bleeding with
  | error e => rw [h7] at h; exact Except.noConfusion h
  | ok u3 =>
  simp only [h7] at h
  cases h8 : guard_op (!cmd.skip_update) env.update_bleeding with
  | error e => rw [h8] at h; exact Except.noConfusion h
  | ok u4 =>
  simp only [h8] at h
  cases h9 : env.moon_version_bleeding with
  | error e => rw [h9] at h; exact Except.noConfusion h
  | ok mv2 =>
  simp only [h9] at h
  cases h10 : env.moonc_version_bleeding with
  | error e => rw [h10] at h; exact Except.noConfusion h
  | ok mc2 =>
  simp only [h10] at h
  cases h11 : build_all env.bleeding_build env.host srcs 0 with
  | error e => rw [h11] at h; exact Except.noConfusion h
  | ok bleeding_data =>
  simp only [h11] at h
  injection h with h
  subst h
  obtain ⟨hslen, hsget⟩ := build_all_spec env.stable_build env.host srcs 0 stable_data h6
  obtain ⟨hblen, hbget⟩ := build_all_spec env.bleeding_build env.host srcs 0 bleeding_data h11
  exact ⟨hslen, hblen, hsget, hbget⟩

def demo_matrix_env : Nat → StatMooncakeEnv := fun _ =>
  { clean_spawn := SpawnResult.exited true "" ""
    clean_elapsed := 1
    cmd_spawn := SpawnResult.exited true "out" ""
    cmd_elapsed := 2
    start_time := "t" }

def demo_build_env : BuildEnv :=
  { tmpdir_ok := true
    clone := Except.ok ()
    checkout_ok := fun _ => true
    download_ok := fun _ => true
    matrixEnv := fun _ => demo_matrix_env }

def demo_stat_env : StatEnv :=
  { run_id := none
    run_number := none
    start_time := "s"
    host := OS.Linux
    install_stable := Except.ok ()
    update_stable := Except.ok ()
    moon_version_stable := Except.ok "m1"
    moonc_version_stable := Except.ok "c1"
    install_bleeding := Except.ok ()
    update_bleeding := Except.ok ()
    moon_version_bleeding := Except.ok "m2"
    moonc_version_bleeding := Except.ok "c2"
    stable_build := fun _ => demo_build_env
    bleeding_build := fun _ => demo_build_env }

def demo_cmd : StatSubcommand :=
  { repo_url := some "https://example.com/r"
    file := none
    skip_install := false
    skip_update := false }

def demo_dashboard : MoonBuildDashboard :=
  { run_id := "0"
    run_number := "0"
    start_time := "s"
    sources := [MooncakeSource.Git "https://example.com/r" []
      default_running_os default_running_backend 0]
    stable_toolchain_version :=
      { label := ToolChainLabel.Stable, moon_version := "m1", moonc_version := "c1" }
    stable_release_data := [{ source := 0, cbts := [] }]
    bleeding_toolchain_version :=
      { label := ToolChainLabel.Bleeding, moon_version := "m2", moonc_version := "c2" }
    bleeding_release_data := [{ source := 0, cbts := [] }] }

/-- Witness for C1: a complete successful `stat` run over one ad-hoc source. -/
theorem stat_dashboard_alignment_witness :
    demo_dashboard.stable_release_data.length = demo_dashboard.sources.length ∧
    demo_dashboard.bleeding_release_data.length = demo_dashboard.sources.length ∧
    (∀ (i : Nat) (b : BuildState) (s : MooncakeSource),
      demo_dashboard.stable_release_data[i]? = some b →
      demo_dashboard.sources[i]? = some s → b.source = s.get_index) ∧
    (∀ (i : Nat) (b : BuildState) (s : MooncakeSource),
      demo_dashboard.bleeding_release_data[i]? = some b →
      demo_dashboard.sources[i]? = some s → b.source = s.get_index) :=
  stat_dashboard_alignment demo_stat_env demo_cmd demo_dashboard rfl

lemma scan_foldl :
    ∀ (lines : List MooncakeInfo) (acc : List String) (flag : Bool),
      lines.foldl scan_step (acc, flag) =
        (acc ++ lines.map (fun info => info.version),
         flag || lines.any line_flags_test) := by
  intro lines
  induction lines with
  | nil => intro acc flag; simp
  | cons info rest ih =>
      intro acc flag
      rw [List.foldl_cons]
      show List.foldl scan_step (acc ++ [info.version], flag || line_flags_test info) rest = _
      rw [ih]
      simp [List.append_assoc, Bool.or_assoc]

lemma scan_index_lines_spec (lines : List MooncakeInfo) :
    scan_index_lines lines =
      (lines.map (fun info => info.version), lines.any line_flags_test) := by
  rw [scan_index_lines, scan_foldl]
  simp

lemma mooncakes_fold_step_other (db : MooncakesDBMap)
    (e : String × List MooncakeInfo) (name : String) (hne : name ≠ e.1) :
    mooncakes_fold_step db e name = db name := by
  unfold mooncakes_fold_step db_insert
  cases hsc : (scan_index_lines e.2).2 <;> simp [hne]

lemma get_all_fold_not_mem :
    ∀ (entries : List (String × List MooncakeInfo)) (db : MooncakesDBMap)
      (name : String),
      name ∉ entries.map Prod.fst →
      entries.foldl mooncakes_fold_step db name = db name := by
  intro entries
  induction entries with
  | nil => intro db name _; rfl
  | cons e rest ih =>
      intro db name h
      simp only [List.map_cons, List.mem_cons, not_or] at h
      obtain ⟨hne, hrest⟩ := h
      rw [List.foldl_cons, ih _ name hrest, mooncakes_fold_step_other db e name hne]

lemma get_all_fold_mem :
    ∀ (entries : List (String × List MooncakeInfo)) (db : MooncakesDBMap)
      (name : String) (lines : List MooncakeInfo),
      (entries.map Prod.fst).Nodup → (name, lines) ∈ entries →
      entries.foldl mooncakes_fold_step db name =
        (if (scan_index_lines lines).2 then db name
         else some (scan_index_lines lines).1) := by
  intro entries
  induction entries with
  | nil => intro db name lines _ hmem; simp at hmem
  | cons e rest ih =>
      intro db name lines hnd hmem
      simp only [List.map_cons, List.nodup_cons] at hnd
      obtain ⟨hnotin, hndrest⟩ := hnd
      rw [List.foldl_cons]
      rcases List.mem_cons.mp hmem with heq | hmemrest
      · subst heq
        rw [get_all_fold_not_mem rest _ name (by simpa using hnotin)]
        unfold mooncakes_fold_step db_insert
        cases hsc : (scan_index_lines lines).2 <;> simp
      · have hname_in : name ∈ rest.map Prod.fst := by
          exact List.mem_map_of_mem Prod.fst hmemrest
        have hne : name ≠ e.1 := fun hc => hnotin (hc ▸ hname_in)
        rw [ih _ name lines hndrest hmemrest, mooncakes_fold_step_other db e name hne]

/-- C9 (implicit): `get_all_mooncakes` omits from the returned database every
scanned package whose index file contains, on any line, a keywords list
containing `"mooncakes-test"`; every other scanned package is present with
its versions in file line order; names never scanned are absent.  (Assumes
the scanned package names are distinct, as they are derived from distinct
index-file paths.) -/
theorem get_all_mooncakes_spec (entries : List (String × List MooncakeInfo))
    (hnodup : (entries.map Prod.fst).Nodup) :
    (∀ (name : String) (lines : List MooncakeInfo), (name, lines) ∈ entries →
      get_all_mooncakes entries name =
        (if lines.any line_flags_test then none
         else some (lines.map (fun info => info.version)))) ∧
    (∀ name : String, name ∉ entries.map Prod.fst →
      get_all_mooncakes entries name = none) := by
  constructor
  · intro name lines hmem
    rw [get_all_mooncakes, get_all_fold_mem entries db_empty name lines hnodup hmem]
    simp only [scan_index_lines_spec]
    rfl
  · intro name hnot
    rw [get_all_mooncakes, get_all_fold_not_mem entries db_empty name hnot]
    rfl

def demo_entries : List (String × List MooncakeInfo) :=
  [("a/b", [{ version := "1.0.0", keywords := none },
            { version := "2.0.0", keywords := some ["lib"] }]),
   ("a/t", [{ version := "1", keywords := some ["mooncakes-test"] }])]

/-- Witness for C9: one ordinary package, one package flagged by the
`mooncakes-test` keyword, and an unscanned name. -/
theorem get_all_mooncakes_spec_witness :
    get_all_mooncakes demo_entries "a/b" = some ["1.0.0", "2.0.0"] ∧
    get_all_mooncakes demo_entries "a/t" = none ∧
    get_all_mooncakes demo_entries "a/z" = none := by
  refine ⟨?_, ?_, ?_⟩
  · have := (get_all_mooncakes_spec demo_entries (by decide)).1 "a/b"
      [{ version := "1.0.0", keywords := none },
       { version := "2.0.0", keywords := some ["lib"] }] (by decide)
    simpa using this
  · have := (get_all_mooncakes_spec demo_entries (by decide)).1 "a/t"
      [{ version := "1", keywords := some ["mooncakes-test"] }] (by decide)
    simpa using this
  · exact (get_all_mooncakes_spec demo_entries (by decide)).2 "a/z" (by decide)

end MoonBuild
